import Mathlib

/-!
Verification of the access-control and credential-verification core of the
backend boilerplate (ACL repository, user repository, token cache, HTTP route
wrapper), as a shallow embedding of the TypeScript sources:

  - `src/db/repositories/acl.ts`   (class `ACLRepository`)
  - `src/db/repositories/user.ts`  (class `UserRepository`)
  - `src/api/http/plugins/auth.ts` (`options.auth`) and `src/api/http/utils/cache.ts`
  - the route registration helper (`createRoute`) and the `HttpStatus` enum

The Prisma-backed store is modelled as explicit in-memory state threaded
through every repository call; throwing code is modelled with `Except`.
-/

set_option maxRecDepth 4096

/- ---------------------------------------------------------------------------
Errors: `KnownError` (libs/error) and store-level (Prisma) failures
--------------------------------------------------------------------------- -/

/-- `ErrorCode` from `libs/error/interfaces/enums`. -/
inductive ErrorCode where
  | UserNotFound
  | UserCredentialsNotValid
  | UserApiTokenNotValid
  | AccessDenied
deriving DecidableEq, Repr

/-- `KnownError` from `libs/error/index.ts`: an error code plus a message.
A `KnownError` constructed without a message carries `""` (JS `Error` with an
`undefined` message has `.message === ''`). -/
structure KnownError where
  code : ErrorCode
  message : String
deriving DecidableEq, Repr

/-- Store-level (Prisma) failures surfaced by `create`/`update`/`delete`:
unique-constraint violation and record-not-found. -/
inductive StoreErr where
  | uniqueViolation
  | recordNotFound
deriving DecidableEq, Repr

/-- Decidable equality on `Except`, so that witnesses can be settled by
evaluation. -/
instance instDecEqExcept {ε α : Type} [DecidableEq ε] [DecidableEq α] :
    DecidableEq (Except ε α) := fun a b =>
  match a, b with
  | .ok x, .ok y =>
    if h : x = y then .isTrue (congrArg Except.ok h)
    else .isFalse (fun hc => h (Except.ok.inj hc))
  | .error x, .error y =>
    if h : x = y then .isTrue (congrArg Except.error h)
    else .isFalse (fun hc => h (Except.error.inj hc))
  | .ok _, .error _ => .isFalse (fun hc => Except.noConfusion hc)
  | .error _, .ok _ => .isFalse (fun hc => Except.noConfusion hc)

/-- What `isApiCompositeKeyValid` can throw: a `KnownError`, or the error
bcrypt raises when the composite key contains no colon, so that the
destructured apiKey is `undefined` and `bcrypt.compare(undefined, hash)`
rejects with a type error. -/
inductive ApiKeyCheckErr where
  | known (e : KnownError)
  | typeErr
deriving DecidableEq, Repr

/- ---------------------------------------------------------------------------
bcrypt: deterministic model of the salted one-way hash

`bcrypt.hash(input, rounds)` is modelled as an injective tagging function and
`bcrypt.compare(data, encrypted)` as recomputation of the digest; every call
site in the repository uses work factor 10 (`UserRepository.encrypt`).
--------------------------------------------------------------------------- -/

namespace bcrypt

/-- Model of `bcrypt.hash(input, saltRounds)`. -/
def hash (input : String) (saltRounds : Nat) : String :=
  "$2b$" ++ toString saltRounds ++ "$" ++ input

/-- Model of `bcrypt.compare(data, encrypted)`: the stored digest matches
exactly when it is the digest of `data` (work factor 10 throughout). -/
def compare (data : String) (encrypted : String) : Bool :=
  encrypted == hash data 10

end bcrypt

/- ---------------------------------------------------------------------------
ACL repository (src/db/repositories/acl.ts)

schema.prisma: `model ACL` is the composite-keyed tuple
(userId, resourceType, resourceId) with `@@id` on all three fields; the store
is modelled as the list of tuples currently present.
--------------------------------------------------------------------------- -/

/-- `enum ResourceType` from schema.prisma (closed enumeration). -/
inductive ResourceType where
  | Project
deriving DecidableEq, Repr

/-- Rendering used by the `checkAccess` error message interpolation. -/
def ResourceType.str : ResourceType → String
  | .Project => "Project"

/-- A row of the `ACL` table. -/
structure AclRow where
  userId : Nat
  resourceType : ResourceType
  resourceId : Nat
deriving DecidableEq, Repr

/-- The `ACL` table contents. -/
abbrev AclDb := List AclRow

namespace ACLRepository

/-- The `where` clause `userId_resourceType_resourceId` used by
`findUnique`/`delete`: exact match on the composite primary key. -/
def keyMatch (userId : Nat) (resourceType : ResourceType) (resourceId : Nat)
    (e : AclRow) : Bool :=
  decide (e.userId = userId ∧ e.resourceType = resourceType ∧ e.resourceId = resourceId)

/-- `grantAccess`: `db.aCL.create({data: {userId, resourceType, resourceId}})`.
Creating a duplicate of the composite primary key fails with the store's
unique-constraint violation. -/
def grantAccess (db : AclDb) (userId : Nat) (resourceType : ResourceType)
    (resourceId : Nat) : Except StoreErr AclDb :=
  if db.any (keyMatch userId resourceType resourceId) then
    Except.error StoreErr.uniqueViolation
  else
    Except.ok (⟨userId, resourceType, resourceId⟩ :: db)

/-- `hasAccess`: `findUnique` on the composite key, then `!!entity`. -/
def hasAccess (db : AclDb) (userId : Nat) (resourceType : ResourceType)
    (resourceId : Nat) : Bool :=
  (db.find? (keyMatch userId resourceType resourceId)).isSome

/-- The interpolated message of the `AccessDenied` error thrown by `checkAccess`. -/
def accessDeniedMessage (userId : Nat) (resourceType : ResourceType)
    (resourceId : Nat) : String :=
  "User " ++ toString userId ++ " does not have access to resource "
    ++ resourceType.str ++ " " ++ toString resourceId

/-- `checkAccess`: calls `hasAccess` and throws `KnownError('AccessDenied', …)`
when it is false. The method performs no store write; returning the (unchanged)
store makes that explicit. -/
def checkAccess (db : AclDb) (userId : Nat) (resourceType : ResourceType)
    (resourceId : Nat) : Except KnownError AclDb :=
  let isAccessGranted := hasAccess db userId resourceType resourceId
  if isAccessGranted then
    Except.ok db
  else
    Except.error ⟨ErrorCode.AccessDenied, accessDeniedMessage userId resourceType resourceId⟩

/-- `revokeAccess`: `db.aCL.delete` on the composite key; deleting an absent
row fails with the store's record-not-found error. -/
def revokeAccess (db : AclDb) (userId : Nat) (resourceType : ResourceType)
    (resourceId : Nat) : Except StoreErr AclDb :=
  if db.any (keyMatch userId resourceType resourceId) then
    Except.ok (db.filter (fun e => ! keyMatch userId resourceType resourceId e))
  else
    Except.error StoreErr.recordNotFound

end ACLRepository

/- ---------------------------------------------------------------------------
User repository (src/db/repositories/user.ts)

schema.prisma: `model User` has `id` (autoincrement PK), `username` (unique),
`password`, and a nullable unique `apiKey`. Result objects are modelled as
`UserView`, where `none` in `password`/`apiKey` means the field was omitted
from the returned object (the `safeOmit` configuration).
--------------------------------------------------------------------------- -/

/-- A row of the `Users` table. -/
structure UserRow where
  id : Nat
  username : String
  password : String
  apiKey : Option String
deriving DecidableEq, Repr

/-- A user object as returned across the repository boundary. `password = none`
(resp. `apiKey = none`) means the field is absent from the object;
`apiKey = some v` carries the nullable column value `v`. -/
structure UserView where
  id : Nat
  username : String
  password : Option String
  apiKey : Option (Option String)
deriving DecidableEq, Repr

/-- The `Users` table plus the autoincrement counter. -/
structure UserDb where
  users : List UserRow
  nextId : Nat
deriving DecidableEq, Repr

/-- `Prisma.UserCreateInput` with `apiKey` excluded (the parameter type of
`UserRepository.create`). -/
structure UserCreateInput where
  username : String
  password : String
deriving DecidableEq, Repr

/-- `Prisma.UserUpdateInput`: each field is optionally present in the update
payload. -/
structure UserUpdateInput where
  username : Option String := none
  password : Option String := none
  apiKey : Option (Option String) := none
deriving DecidableEq, Repr

/-- `Prisma.UserWhereUniqueInput` as used by the repository: lookup by `id` or
by `username`. -/
inductive UserWhere where
  | byId (id : Nat)
  | byUsername (username : String)
deriving DecidableEq, Repr

/-- Whether a row satisfies the unique `where` clause. -/
def UserWhere.matchesRow : UserWhere → UserRow → Bool
  | .byId i, u => u.id == i
  | .byUsername s, u => u.username == s

namespace UserRepository

/-- Effect of the `safeOmit` configuration (`omit: {password: true, apiKey:
true}`): the returned object keeps only the non-secret columns. -/
def safeOmit (u : UserRow) : UserView :=
  { id := u.id, username := u.username, password := none, apiKey := none }

/-- A row returned without `safeOmit`: every column is present. -/
def fullView (u : UserRow) : UserView :=
  { id := u.id, username := u.username, password := some u.password, apiKey := some u.apiKey }

/-- `UserRepository.encrypt`: `bcrypt.hash(input, 10)`. -/
def encrypt (input : String) : String :=
  bcrypt.hash input 10

/-- `UserRepository.getUnique`: `findUnique` with `safeOmit` applied exactly
when `safe` is true; throws `KnownError('UserNotFound')` when no row matches. -/
def getUnique (db : UserDb) (w : UserWhere) (safe : Bool) : Except KnownError UserView :=
  match db.users.find? w.matchesRow with
  | none => Except.error ⟨ErrorCode.UserNotFound, ""⟩
  | some user => Except.ok (if safe then safeOmit user else fullView user)

/-- `UserRepository.getById` (the `safe` parameter defaults to `true` at call
sites). -/
def getById (db : UserDb) (id : Nat) (safe : Bool) : Except KnownError UserView :=
  getUnique db (UserWhere.byId id) safe

/-- `UserRepository.getByUsername`. -/
def getByUsername (db : UserDb) (username : String) (safe : Bool) :
    Except KnownError UserView :=
  getUnique db (UserWhere.byUsername username) safe

/-- `UserRepository.create`: hashes the password, inserts the row (unique
`username` enforced by the store), and returns the `safeOmit` view of the
created row. -/
def create (db : UserDb) (data : UserCreateInput) : Except StoreErr (UserDb × UserView) :=
  let encryptedPassword := encrypt data.password
  let row : UserRow :=
    { id := db.nextId, username := data.username, password := encryptedPassword, apiKey := none }
  if db.users.any (fun u => u.username == data.username) then
    Except.error StoreErr.uniqueViolation
  else
    Except.ok ({ users := db.users ++ [row], nextId := db.nextId + 1 }, safeOmit row)

/-- Application of an update payload to a row: every supplied field overwrites
the column, absent fields leave it unchanged. -/
def applyUpdate (data : UserUpdateInput) (u : UserRow) : UserRow :=
  { u with
    username := data.username.getD u.username
    password := data.password.getD u.password
    apiKey := data.apiKey.getD u.apiKey }

/-- `UserRepository.update`: the JS truthiness test `if (data.password)`
re-hashes the password only when it is present AND non-empty (an empty string
is falsy and is written through unchanged); then `db.user.update` with
`safeOmit`, which fails with the store's record-not-found error when `id`
matches no row. -/
def update (db : UserDb) (id : Nat) (data : UserUpdateInput) :
    Except StoreErr (UserDb × UserView) :=
  let data2 :=
    match data.password with
    | some p => if p = "" then data else { data with password := some (encrypt p) }
    | none => data
  match db.users.find? (fun u => u.id == id) with
  | none => Except.error StoreErr.recordNotFound
  | some u =>
    Except.ok
      ({ db with users := db.users.map (fun w => if w.id == id then applyUpdate data2 w else w) },
        safeOmit (applyUpdate data2 u))

/-- `UserRepository.getByCredentials`: fetches the full record by username
(propagating `UserNotFound`), compares the supplied password against the
stored hash, throws `KnownError('UserCredentialsNotValid')` on mismatch, and
otherwise returns the rest-destructured object (secrets removed). -/
def getByCredentials (db : UserDb) (username password : String) :
    Except KnownError UserView :=
  match getByUsername db username false with
  | Except.error e => Except.error e
  | Except.ok v =>
    let encryptedPassword := v.password.getD ""
    if bcrypt.compare password encryptedPassword then
      Except.ok { v with password := none, apiKey := none }
    else
      Except.error ⟨ErrorCode.UserCredentialsNotValid, ""⟩

end UserRepository

/- ---------------------------------------------------------------------------
JS string/number helpers used by `isApiCompositeKeyValid` and `createApiKey`
--------------------------------------------------------------------------- -/

/-- `String.prototype.split(sep)` on the character list: every separator
occurrence starts a new segment (`"a:b:c" ↦ ["a","b","c"]`, `"" ↦ [""]`). -/
def splitAux (sep : Char) : List Char → List (List Char)
  | [] => [[]]
  | c :: cs =>
    let rest := splitAux sep cs
    if c = sep then [] :: rest
    else (c :: rest.headD []) :: rest.tail

/-- JS `compositeKey.split(':')`. -/
def jsSplit (s : String) (sep : Char) : List String :=
  (splitAux sep s.data).map String.mk

/-- The whitespace characters `Number()` trims. -/
def isWhitespaceChar (c : Char) : Bool :=
  c == ' ' || c == '\t' || c == '\n' || c == '\r' || c == '\x0B' || c == '\x0C'

/-- The numeric value of a (hex) digit character. -/
def hexDigitVal (c : Char) : Nat :=
  if c.isDigit then c.toNat - 48
  else if 'a' ≤ c ∧ c ≤ 'f' then c.toNat - 87
  else if 'A' ≤ c ∧ c ≤ 'F' then c.toNat - 55
  else 0

/-- Digit-string value in the given base. -/
def digitsVal (base : Nat) (ds : List Char) : Nat :=
  ds.foldl (fun acc c => acc * base + hexDigitVal c) 0

/-- Hex-digit recognizer. -/
def isHexDigitChar (c : Char) : Bool :=
  c.isDigit || decide ('a' ≤ c ∧ c ≤ 'f') || decide ('A' ≤ c ∧ c ≤ 'F')

/-- The value of the decimal literal `intPart.fracPart × 10^e`, when that
value is a natural number (`none` otherwise). -/
def intFromParts (intPart fracPart : List Char) (e : Int) : Option Nat :=
  let digits := digitsVal 10 (intPart ++ fracPart)
  let scale : Int := e - fracPart.length
  if 0 ≤ scale then some (digits * 10 ^ scale.toNat)
  else if digits % 10 ^ (-scale).toNat = 0 then some (digits / 10 ^ (-scale).toNat)
  else none

/-- The exponent suffix of a decimal literal: an optional sign and digits. -/
def decimalExp (intPart fracPart r : List Char) : Option Nat :=
  let neg := match r with | '-' :: _ => true | _ => false
  let ds := match r with
    | '+' :: rr => rr
    | '-' :: rr => rr
    | _ => r
  if ds = [] ∨ ¬ ds.all Char.isDigit then none
  else
    intFromParts intPart fracPart
      (if neg then -(digitsVal 10 ds : Int) else (digitsVal 10 ds : Int))

/-- A JS decimal number literal `digits [. digits] [e|E [sign] digits]`,
returning its value when it is a natural number. -/
def decimalNat (u : List Char) : Option Nat :=
  let intPart := u.takeWhile Char.isDigit
  let r1 := u.dropWhile Char.isDigit
  let hasDot := match r1 with | '.' :: _ => true | _ => false
  let fracSrc := if hasDot then r1.tail else []
  let fracPart := fracSrc.takeWhile Char.isDigit
  let r2 := if hasDot then fracSrc.dropWhile Char.isDigit else r1
  if intPart = [] ∧ fracPart = [] then none
  else
    match r2 with
    | [] => intFromParts intPart fracPart 0
    | 'e' :: r => decimalExp intPart fracPart r
    | 'E' :: r => decimalExp intPart fracPart r
    | _ => none

/-- JS `Number(s)`, restricted to results that are natural numbers — the only
values that can match an integer row id. Whitespace is trimmed; `""` is 0;
`0x`/`0o`/`0b` prefixed and decimal literals (optional sign, decimal point,
exponent) are evaluated. `none` stands both for `NaN` and for numbers that
are not naturals (negative or fractional); in the row lookup either matches
no integer id. -/
def jsNumberNat (s : String) : Option Nat :=
  let t1 := s.data.dropWhile isWhitespaceChar
  let t := (t1.reverse.dropWhile isWhitespaceChar).reverse
  match t with
  | [] => some 0
  | '0' :: 'x' :: rest =>
    if rest ≠ [] ∧ rest.all isHexDigitChar then some (digitsVal 16 rest) else none
  | '0' :: 'X' :: rest =>
    if rest ≠ [] ∧ rest.all isHexDigitChar then some (digitsVal 16 rest) else none
  | '0' :: 'o' :: rest =>
    if rest ≠ [] ∧ rest.all (fun c => decide ('0' ≤ c ∧ c ≤ '7')) then some (digitsVal 8 rest)
    else none
  | '0' :: 'O' :: rest =>
    if rest ≠ [] ∧ rest.all (fun c => decide ('0' ≤ c ∧ c ≤ '7')) then some (digitsVal 8 rest)
    else none
  | '0' :: 'b' :: rest =>
    if rest ≠ [] ∧ rest.all (fun c => c == '0' || c == '1') then some (digitsVal 2 rest)
    else none
  | '0' :: 'B' :: rest =>
    if rest ≠ [] ∧ rest.all (fun c => c == '0' || c == '1') then some (digitsVal 2 rest)
    else none
  | '+' :: rest => decimalNat rest
  | '-' :: rest =>
    match decimalNat rest with
    | some 0 => some 0
    | _ => none
  | _ => decimalNat t

/-- The sixteen lowercase hex digits used by `Buffer.toString('hex')`. -/
def hexDigitChars : List Char := "0123456789abcdef".data

/-- The hex digit of a nibble. -/
def hexChar (n : Nat) : Char := hexDigitChars.getD (n % 16) '0'

/-- One byte as two lowercase hex characters (high nibble first). -/
def byteToHex (b : Nat) : List Char := [hexChar (b / 16), hexChar b]

/-- Hex encoding of a byte list, as characters. -/
def hexChars : List Nat → List Char
  | [] => []
  | b :: bs => byteToHex b ++ hexChars bs

/-- `randomBytes(n).toString('hex')`: the hex encoding of the entropy bytes. -/
def hexEncode (bs : List Nat) : String := String.mk (hexChars bs)

namespace UserRepository

/-- `UserRepository.createApiKey`: the randomness of `randomBytes(32)` is
modelled by caller-supplied entropy bytes; the plaintext key is their hex
encoding, the encrypted counterpart its bcrypt hash. -/
def createApiKey (entropy : List Nat) : String × String :=
  let apiKey := hexEncode entropy
  let encryptedApiKey := encrypt apiKey
  (apiKey, encryptedApiKey)

/-- `UserRepository.updateApiKey`: generates the key pair, writes ONLY the
encrypted key to the user's row (failing with the store's record-not-found
error when `id` matches no row), and returns the plaintext. -/
def updateApiKey (db : UserDb) (id : Nat) (entropy : List Nat) :
    Except StoreErr (UserDb × String) :=
  let pair := createApiKey entropy
  match db.users.find? (fun u => u.id == id) with
  | none => Except.error StoreErr.recordNotFound
  | some _ =>
    Except.ok
      ({ db with users := db.users.map (fun w => if w.id == id then
          { w with apiKey := some pair.2 } else w) },
        pair.1)

/-- `UserRepository.isApiCompositeKeyValid`: `compositeKey.split(':')` is
destructured as `[userId, apiKey]` — the FIRST TWO colon-separated segments;
when the key has no colon, `apiKey` is `undefined` (`none` here). The lookup
throws `UserNotFound` when `Number(userId)` matches no row, `AccessDenied`
when the matched row has no API key; then an undefined `apiKey` makes
`bcrypt.compare` reject with a type error, and otherwise the comparison
result is returned. -/
def isApiCompositeKeyValid (db : UserDb) (compositeKey : String) :
    Except ApiKeyCheckErr Bool :=
  let parts := jsSplit compositeKey ':'
  let userId := parts.headD ""
  let apiKey := (parts.drop 1).head?
  match db.users.find? (fun u => jsNumberNat userId == some u.id) with
  | none => Except.error (ApiKeyCheckErr.known ⟨ErrorCode.UserNotFound, ""⟩)
  | some user =>
    match user.apiKey with
    | none => Except.error (ApiKeyCheckErr.known ⟨ErrorCode.AccessDenied, ""⟩)
    | some stored =>
      match apiKey with
      | none => Except.error ApiKeyCheckErr.typeErr
      | some key => Except.ok (bcrypt.compare key stored)

end UserRepository

/-- A concrete stored row ("alice" with a hashed password) used by witnesses. -/
def wRow : UserRow := ⟨1, "alice", UserRepository.encrypt "pw1", none⟩

/-- A concrete one-user store used by witnesses. -/
def wDb : UserDb := ⟨[wRow], 2⟩

/-- `AUTH_TTL` from the HTTP constants: 24 hours in milliseconds. -/
def AUTH_TTL : Nat := 24 * 60 * 60 * 1000

/-- The decoded claims of a verified token; only the issued-at timestamp
(`iat`, in seconds) matters to the auth check. -/
structure JwtClaims where
  iat : Nat
deriving DecidableEq, Repr

/-- One entry of the token cache: the bearer token, its decoded claims, and
the absolute time at which the entry expires. -/
structure CacheEntry where
  token : String
  claims : JwtClaims
  expiresAt : Nat
deriving DecidableEq, Repr

/-- Modelled from the spec: the cache implementation (the node-cache package
behind `jwtCache`) is an external dependency, not repository code. Per the
spec a TTL entry is live from its insertion until its time-to-live elapses;
`has` reports a live matching entry. -/
def cacheHas (entries : List CacheEntry) (token : String) (now : Nat) : Bool :=
  entries.any (fun e => e.token == token && decide (now < e.expiresAt))

/-- Modelled from the spec: `jwtCache.set(token, decoded, ttl)` inserts an
entry that expires `ttl` after the insertion time. -/
def cacheSet (entries : List CacheEntry) (token : String) (claims : JwtClaims)
    (ttl : Nat) (now : Nat) : List CacheEntry :=
  ⟨token, claims, now + ttl⟩ :: entries

/-- `options.auth` from auth.ts, at time `now`: a cache hit short-circuits to
true; otherwise the verifier is applied (`verify t = none` models the decoder
throwing), the token's absolute expiry `iat*1000 + AUTH_TTL` is compared
against `now`, an over-age token is rejected, and an accepted token is cached
with TTL equal to its remaining lifetime `expiresIn = expiresAt - now`.
Returns the decision and the updated cache. -/
def authStep (verify : String → Option JwtClaims) (entries : List CacheEntry)
    (token : String) (now : Nat) : Bool × List CacheEntry :=
  if cacheHas entries token now then (true, entries)
  else
    match verify token with
    | none => (false, entries)
    | some decoded =>
      let createdAt := decoded.iat * 1000
      let expiresAt := createdAt + AUTH_TTL
      if expiresAt < now then (false, entries)
      else (true, cacheSet entries token decoded (expiresAt - now) now)

/-- The cache produced by a sequence of authorization checks (token, time)
starting from the empty cache. -/
def runAuth (verify : String → Option JwtClaims) (events : List (String × Nat)) :
    List CacheEntry :=
  events.foldl (fun es ev => (authStep verify es ev.1 ev.2).2) []

/-- Cache well-formedness: every entry holds verified claims and expires
exactly at its token's absolute max-age boundary. -/
def CacheWF (verify : String → Option JwtClaims) (entries : List CacheEntry) : Prop :=
  ∀ e ∈ entries, verify e.token = some e.claims
    ∧ e.expiresAt = e.claims.iat * 1000 + AUTH_TTL

/-- A concrete verifier used by the C7 witness: exactly the token "tok"
verifies, with issued-at second 1. -/
def wVerify : String → Option JwtClaims :=
  fun t => if t == "tok" then some ⟨1⟩ else none

/- ---------------------------------------------------------------------------
HTTP route registration (`createRoute`) and `HttpStatus`
--------------------------------------------------------------------------- -/

/-- `enum HttpStatus` from services/api/interfaces/enums.ts — the enum that
`createRoute` imports. Its `Unauthorized` member is used only by the
`authenticate` preHandler (the JWT guard), and `NotFound` only elsewhere;
the wrapped handler's catch block uses `OK` and `ServerError`. -/
inductive HttpStatus where
  | OK
  | BadRequest
  | Unauthorized
  | NotFound
  | ServerError
deriving DecidableEq, Repr

/-- The numeric code of each `HttpStatus` member (OK = 200, BadRequest = 400,
Unauthorized = 401, NotFound = 404, ServerError = 503). -/
def HttpStatus.toCode : HttpStatus → Nat
  | .OK => 200
  | .BadRequest => 400
  | .Unauthorized => 401
  | .NotFound => 404
  | .ServerError => 503

/-- What a route handler can throw: a `KnownError` or any other value
(rendered by `error?.toString()`). -/
inductive Thrown where
  | known (e : KnownError)
  | other (message : String)
deriving DecidableEq, Repr

/-- The reply body sent by the `createRoute` wrapper. -/
inductive ResponseBody (α : Type) where
  | payload (d : α)
  | knownErr (error : ErrorCode) (message : String)
  | otherErr (error : String)
deriving DecidableEq, Repr

/-- An HTTP reply: status plus body. -/
structure HttpResponse (α : Type) where
  status : HttpStatus
  body : ResponseBody α
deriving DecidableEq, Repr

/-- The wrapped handler that `createRoute` registers (the try/catch around
`handler`): a successful handler replies `HttpStatus.OK` with the data; a
thrown `KnownError` replies `HttpStatus.ServerError` with
`{error: error.code, message: error.message}`; any other thrown value replies
`HttpStatus.ServerError` with its string rendering. -/
def createRouteHandler {α : Type} (result : Except Thrown α) : HttpResponse α :=
  match result with
  | .ok data => ⟨HttpStatus.OK, ResponseBody.payload data⟩
  | .error (.known e) => ⟨HttpStatus.ServerError, ResponseBody.knownErr e.code e.message⟩
  | .error (.other m) => ⟨HttpStatus.ServerError, ResponseBody.otherErr m⟩

/- ---------------------------------------------------------------------------
Theorems
--------------------------------------------------------------------------- -/

theorem bcrypt.hash_inj {a b : String} (h : bcrypt.hash a 10 = bcrypt.hash b 10) : a = b := by
  unfold bcrypt.hash at h
  have h2 : ("$2b$" ++ toString 10 ++ "$").data ++ a.data
      = ("$2b$" ++ toString 10 ++ "$").data ++ b.data := by
    have := congrArg String.data h
    simpa [String.data_append, List.append_assoc] using this
  have h3 : a.data = b.data := by
    exact List.append_cancel_left h2
  calc a = String.mk a.data := rfl
    _ = String.mk b.data := by rw [h3]
    _ = b := rfl

@[simp]
theorem bcrypt.compare_hash_self (k : String) : bcrypt.compare k (bcrypt.hash k 10) = true := by
  simp [bcrypt.compare]

theorem bcrypt.compare_hash_of_ne {k w : String} (h : w ≠ k) :
    bcrypt.compare w (bcrypt.hash k 10) = false := by
  simp only [bcrypt.compare, beq_eq_false_iff_ne, ne_eq]
  intro hEq
  exact h (bcrypt.hash_inj hEq).symm

theorem bcrypt.hash_ne_self (s : String) : bcrypt.hash s 10 ≠ s := by
  intro h
  have hd := congrArg String.data h
  simp only [bcrypt.hash, String.data_append] at hd
  have hlen := congrArg List.length hd
  simp only [List.length_append] at hlen
  have h1 : ("$2b$" : String).data.length = 4 := by decide
  have h2 : (toString 10 : String).data.length = 2 := by decide
  have h3 : ("$" : String).data.length = 1 := by decide
  omega

/- ---------------------------------------------------------------------------
Claims C2 and C3
--------------------------------------------------------------------------- -/

/-- C2: after `grantAccess(userId, resourceType, resourceId)` succeeds,
`hasAccess` of the same tuple is true; after a subsequent successful
`revokeAccess` of that tuple it is false; and `hasAccess` with no intervening
grant or revoke (i.e. on the same store state) always returns the same result
(the operation is a pure read of the store). -/
theorem acl_grant_revoke_hasAccess :
    ∀ (db : AclDb) (userId : Nat) (rt : ResourceType) (rid : Nat) (db1 : AclDb),
      ACLRepository.grantAccess db userId rt rid = Except.ok db1 →
      ACLRepository.hasAccess db1 userId rt rid = true ∧
      (∀ db2, ACLRepository.revokeAccess db1 userId rt rid = Except.ok db2 →
        ACLRepository.hasAccess db2 userId rt rid = false) ∧
      ACLRepository.hasAccess db1 userId rt rid
        = ACLRepository.hasAccess db1 userId rt rid := by
  intro db userId rt rid db1 hGrant
  unfold ACLRepository.grantAccess at hGrant
  by_cases hDup : db.any (ACLRepository.keyMatch userId rt rid) = true
  · rw [if_pos hDup] at hGrant
    exact absurd hGrant (by intro hc; exact Except.noConfusion hc)
  · rw [if_neg hDup] at hGrant
    injection hGrant with hdb1
    subst hdb1
    refine ⟨?_, ?_, rfl⟩
    · simp [ACLRepository.hasAccess, List.find?, ACLRepository.keyMatch]
    · intro db2 hRevoke
      unfold ACLRepository.revokeAccess at hRevoke
      by_cases hAny :
          (⟨userId, rt, rid⟩ :: db : AclDb).any (ACLRepository.keyMatch userId rt rid) = true
      · rw [if_pos hAny] at hRevoke
        injection hRevoke with hdb2
        subst hdb2
        unfold ACLRepository.hasAccess
        rw [List.find?_eq_none.mpr]
        · rfl
        · intro e hMem hKey
          have := List.mem_filter.mp hMem
          rw [hKey] at this
          simp at this
      · rw [if_neg hAny] at hRevoke
        exact Except.noConfusion hRevoke

/-- C2 witness: a concrete grant/revoke round trip on the empty store. -/
theorem acl_grant_revoke_hasAccess_witness :
    ACLRepository.hasAccess [⟨1, ResourceType.Project, 42⟩] 1 ResourceType.Project 42 = true ∧
    ACLRepository.hasAccess [] 1 ResourceType.Project 42 = false := by
  have h := acl_grant_revoke_hasAccess [] 1 ResourceType.Project 42
      [⟨1, ResourceType.Project, 42⟩] (by decide)
  refine ⟨h.1, ?_⟩
  have h2 := h.2.1 [] (by decide)
  exact h2

/-- C3: `checkAccess` throws `AccessDenied` (with the interpolated message) if
and only if `hasAccess` of the same tuple is false; it completes without error
exactly when the tuple exists; and in the success case it returns the store
unchanged (the method performs no write — by its type it cannot return a
modified store in the error case either). -/
theorem acl_checkAccess_iff_hasAccess :
    ∀ (db : AclDb) (userId : Nat) (rt : ResourceType) (rid : Nat),
      (ACLRepository.checkAccess db userId rt rid
          = Except.error ⟨ErrorCode.AccessDenied,
              ACLRepository.accessDeniedMessage userId rt rid⟩
        ↔ ACLRepository.hasAccess db userId rt rid = false) ∧
      (ACLRepository.checkAccess db userId rt rid = Except.ok db
        ↔ ACLRepository.hasAccess db userId rt rid = true) := by
  intro db userId rt rid
  by_cases h : ACLRepository.hasAccess db userId rt rid
  · constructor
    · simp [ACLRepository.checkAccess, h]
    · simp [ACLRepository.checkAccess, h]
  · constructor
    · simp [ACLRepository.checkAccess, h]
    · simp only [Bool.not_eq_true] at h
      simp [ACLRepository.checkAccess, h]

/- ---------------------------------------------------------------------------
Claims C1, C4, C8
--------------------------------------------------------------------------- -/

/-- C1: every user-returning operation invoked in safe mode — `create`,
`update`, `getById`/`getByUsername` with `safe = true`, and
`getByCredentials` — returns an object with no `password` and no `apiKey`
field; only the `safe = false` variants of `getById`/`getByUsername` go
through `fullView` and may carry those fields. -/
theorem user_safe_mode_omits_secrets :
    ∀ (db : UserDb),
      (∀ data db1 v, UserRepository.create db data = Except.ok (db1, v) →
        v.password = none ∧ v.apiKey = none) ∧
      (∀ id data db1 v, UserRepository.update db id data = Except.ok (db1, v) →
        v.password = none ∧ v.apiKey = none) ∧
      (∀ id v, UserRepository.getById db id true = Except.ok v →
        v.password = none ∧ v.apiKey = none) ∧
      (∀ username v, UserRepository.getByUsername db username true = Except.ok v →
        v.password = none ∧ v.apiKey = none) ∧
      (∀ username password v, UserRepository.getByCredentials db username password = Except.ok v →
        v.password = none ∧ v.apiKey = none) := by
  intro db
  refine ⟨?_, ?_, ?_, ?_, ?_⟩
  · intro data db1 v h
    unfold UserRepository.create at h
    by_cases hDup : db.users.any (fun u => u.username == data.username) = true
    · rw [if_pos hDup] at h
      exact Except.noConfusion h
    · rw [if_neg hDup] at h
      injection h with hPair
      have hv := congrArg Prod.snd hPair
      simp only at hv
      rw [← hv]
      exact ⟨rfl, rfl⟩
  · intro id data db1 v h
    unfold UserRepository.update at h
    cases hFind : db.users.find? (fun u => u.id == id) with
    | none => rw [hFind] at h; exact Except.noConfusion h
    | some u =>
      rw [hFind] at h
      injection h with hPair
      have hv := congrArg Prod.snd hPair
      simp only at hv
      rw [← hv]
      exact ⟨rfl, rfl⟩
  · intro id v h
    unfold UserRepository.getById UserRepository.getUnique at h
    cases hFind : db.users.find? (UserWhere.byId id).matchesRow with
    | none => rw [hFind] at h; exact Except.noConfusion h
    | some u =>
      rw [hFind] at h
      injection h with hv
      rw [← hv]
      exact ⟨rfl, rfl⟩
  · intro username v h
    unfold UserRepository.getByUsername UserRepository.getUnique at h
    cases hFind : db.users.find? (UserWhere.byUsername username).matchesRow with
    | none => rw [hFind] at h; exact Except.noConfusion h
    | some u =>
      rw [hFind] at h
      injection h with hv
      rw [← hv]
      exact ⟨rfl, rfl⟩
  · intro username password v h
    unfold UserRepository.getByCredentials at h
    cases hGet : UserRepository.getByUsername db username false with
    | error e => rw [hGet] at h; exact Except.noConfusion h
    | ok w =>
      rw [hGet] at h
      dsimp only at h
      by_cases hCmp : bcrypt.compare password (w.password.getD "") = true
      · rw [if_pos hCmp] at h
        injection h with hv
        rw [← hv]
        exact ⟨rfl, rfl⟩
      · rw [if_neg hCmp] at h
        exact Except.noConfusion h

/-- C1 witness: the view returned by `create` on a fresh store carries neither
secret field. -/
theorem user_safe_mode_omits_secrets_witness :
    (⟨1, "alice", none, none⟩ : UserView).password = none ∧
    (⟨1, "alice", none, none⟩ : UserView).apiKey = none :=
  (user_safe_mode_omits_secrets ⟨[], 1⟩).1 ⟨"alice", "pw1"⟩
    ⟨[⟨1, "alice", UserRepository.encrypt "pw1", none⟩], 2⟩
    ⟨1, "alice", none, none⟩ (by decide)

/-- C4: `getByCredentials(username, password)` throws `UserNotFound` when no
row matches the username; otherwise it returns the safe view of the matched
row when the password verifies against the stored hash and throws
`UserCredentialsNotValid` when it does not — the `find?` case split makes
these the only possible outcomes. -/
theorem getByCredentials_trichotomy :
    ∀ (db : UserDb) (username password : String),
      (db.users.find? ((UserWhere.byUsername username).matchesRow) = none →
        UserRepository.getByCredentials db username password
          = Except.error ⟨ErrorCode.UserNotFound, ""⟩) ∧
      (∀ u, db.users.find? ((UserWhere.byUsername username).matchesRow) = some u →
        UserRepository.getByCredentials db username password
          = if bcrypt.compare password u.password then
              Except.ok (UserRepository.safeOmit u)
            else
              Except.error ⟨ErrorCode.UserCredentialsNotValid, ""⟩) := by
  intro db username password
  constructor
  · intro hFind
    unfold UserRepository.getByCredentials UserRepository.getByUsername
      UserRepository.getUnique
    rw [hFind]
  · intro u hFind
    unfold UserRepository.getByCredentials UserRepository.getByUsername
      UserRepository.getUnique
    rw [hFind]
    dsimp only
    have hred : (if (false : Bool) = true then UserRepository.safeOmit u
        else UserRepository.fullView u) = UserRepository.fullView u := rfl
    rw [hred]
    dsimp only [UserRepository.fullView, UserRepository.safeOmit, Option.getD]

/-- C4 witness: the three outcomes on a concrete store. -/
theorem getByCredentials_trichotomy_witness :
    UserRepository.getByCredentials wDb "alice" "pw1"
      = Except.ok ⟨1, "alice", none, none⟩ ∧
    UserRepository.getByCredentials wDb "alice" "wrong"
      = Except.error ⟨ErrorCode.UserCredentialsNotValid, ""⟩ ∧
    UserRepository.getByCredentials wDb "bob" "pw1"
      = Except.error ⟨ErrorCode.UserNotFound, ""⟩ := by
  refine ⟨?_, ?_, ?_⟩
  · rw [(getByCredentials_trichotomy wDb "alice" "pw1").2 wRow (by decide)]
    decide
  · rw [(getByCredentials_trichotomy wDb "alice" "wrong").2 wRow (by decide)]
    decide
  · exact (getByCredentials_trichotomy wDb "bob" "pw1").1 (by decide)

/-- C8 counterexample: the claim says a present `password` field is always
re-hashed, but the JS truthiness check `if (data.password)` skips the empty
string, which is then written to the store verbatim: updating user 1 with
`password: ""` stores `""` itself (the supplied plaintext), which is not its
hash. -/
theorem update_empty_password_cex :
    UserRepository.update ⟨[⟨1, "alice", "oldhash", none⟩], 2⟩ 1 ⟨none, some "", none⟩
      = Except.ok (⟨[⟨1, "alice", "", none⟩], 2⟩, ⟨1, "alice", none, none⟩) ∧
    ("" : String) ≠ UserRepository.encrypt "" := by
  constructor
  · decide
  · decide

/-- C8 (amended): for every `update(id, data)` whose payload carries a
NON-EMPTY `password`, the value written is the re-computed hash (never the
plaintext: the hash differs from it); every other supplied field is written
through unchanged (absent fields keep the stored value); and the operation
returns the safe view of the updated row. (The original claim fails only for
the empty-string password, which JS truthiness exempts from re-hashing.) -/
theorem update_rehashes_nonempty_password :
    ∀ (db : UserDb) (id : Nat) (data : UserUpdateInput) (p : String) (u : UserRow),
      data.password = some p → p ≠ "" →
      db.users.find? (fun w => w.id == id) = some u →
      UserRepository.update db id data
        = Except.ok
            ({ db with
                users := db.users.map (fun w => if w.id == id then
                  UserRepository.applyUpdate
                    { data with password := some (UserRepository.encrypt p) } w else w) },
              UserRepository.safeOmit
                (UserRepository.applyUpdate
                  { data with password := some (UserRepository.encrypt p) } u)) ∧
      (UserRepository.applyUpdate
          { data with password := some (UserRepository.encrypt p) } u).password
        = UserRepository.encrypt p ∧
      UserRepository.encrypt p ≠ p ∧
      (UserRepository.applyUpdate
          { data with password := some (UserRepository.encrypt p) } u).username
        = data.username.getD u.username ∧
      (UserRepository.applyUpdate
          { data with password := some (UserRepository.encrypt p) } u).apiKey
        = data.apiKey.getD u.apiKey := by
  intro db id data p u hp hpne hFind
  refine ⟨?_, rfl, bcrypt.hash_ne_self p, rfl, rfl⟩
  unfold UserRepository.update
  rw [hp]
  dsimp only
  rw [if_neg hpne, hFind]

/-- C8 witness: a concrete non-empty password update on `wDb`. -/
theorem update_rehashes_nonempty_password_witness :
    UserRepository.update wDb 1 ⟨none, some "new", none⟩
      = Except.ok (⟨[⟨1, "alice", UserRepository.encrypt "new", none⟩], 2⟩,
          ⟨1, "alice", none, none⟩) ∧
    UserRepository.encrypt "new" ≠ "new" := by
  constructor
  · rw [(update_rehashes_nonempty_password wDb 1 ⟨none, some "new", none⟩ "new" wRow
      rfl (by decide) (by decide)).1]
    decide
  · exact (update_rehashes_nonempty_password wDb 1 ⟨none, some "new", none⟩ "new" wRow
      rfl (by decide) (by decide)).2.2.1

/- ---------------------------------------------------------------------------
Lemmas about the helpers
--------------------------------------------------------------------------- -/

theorem splitAux_of_not_mem (sep : Char) (cs : List Char) (h : sep ∉ cs) :
    splitAux sep cs = [cs] := by
  induction cs with
  | nil => rfl
  | cons c cs ih =>
    have hc : ¬ c = sep := fun hEq => h (hEq ▸ List.mem_cons_self c cs)
    have hcs : sep ∉ cs := fun hm => h (List.mem_cons_of_mem c hm)
    unfold splitAux
    rw [if_neg hc, ih hcs]
    rfl

theorem splitAux_append (sep : Char) (a b : List Char) (h : sep ∉ a) :
    splitAux sep (a ++ sep :: b) = a :: splitAux sep b := by
  induction a with
  | nil =>
    simp only [List.nil_append, splitAux]
    simp
  | cons c a ih =>
    have hc : ¬ c = sep := fun hEq => h (hEq ▸ List.mem_cons_self c a)
    have ha : sep ∉ a := fun hm => h (List.mem_cons_of_mem c hm)
    simp only [List.cons_append, splitAux, List.append_eq]
    rw [if_neg hc, ih ha]
    rfl

theorem jsSplit_append (uid key : String) (h1 : ':' ∉ uid.data) (h2 : ':' ∉ key.data) :
    jsSplit (uid ++ ":" ++ key) ':' = [uid, key] := by
  have hdata : (uid ++ ":" ++ key).data = uid.data ++ ':' :: key.data := by
    simp [String.data_append]
  unfold jsSplit
  rw [hdata, splitAux_append ':' uid.data key.data h1, splitAux_of_not_mem ':' key.data h2]
  rfl

theorem hexChar_ne_colon (n : Nat) : hexChar n ≠ ':' := by
  have h : n % 16 < 16 := Nat.mod_lt n (by decide)
  have hall : ∀ m, m < 16 → hexDigitChars.getD m '0' ≠ ':' := by decide
  exact hall (n % 16) h

theorem colon_not_mem_hexChars (bs : List Nat) : ':' ∉ hexChars bs := by
  induction bs with
  | nil => simp [hexChars]
  | cons b bs ih =>
    intro hmem
    rcases List.mem_append.mp hmem with hl | hr
    · rcases List.mem_cons.mp hl with hEq | hl2
      · exact hexChar_ne_colon (b / 16) hEq.symm
      · rcases List.mem_cons.mp hl2 with hEq | hnil
        · exact hexChar_ne_colon b hEq.symm
        · exact List.not_mem_nil _ hnil
    · exact ih hr

theorem colon_not_mem_hexEncode (bs : List Nat) : ':' ∉ (hexEncode bs).data :=
  colon_not_mem_hexChars bs

theorem hexChars_length (bs : List Nat) : (hexChars bs).length = 2 * bs.length := by
  induction bs with
  | nil => rfl
  | cons b bs ih =>
    simp only [hexChars, byteToHex, List.length_append, List.length_cons, ih,
      List.length_nil]
    omega

theorem hexEncode_length (bs : List Nat) : (hexEncode bs).length = 2 * bs.length :=
  hexChars_length bs

theorem beq_nat_symm (a b : Nat) : (a == b) = (b == a) := by
  by_cases h : a = b
  · subst h; rfl
  · rw [beq_eq_false_iff_ne.mpr h, beq_eq_false_iff_ne.mpr (Ne.symm h)]

/-- Evaluation of `isApiCompositeKeyValid` on a composite key whose two parts
contain no colon: the userId part is `uid`, the compared key is `key`. -/
theorem isApiCompositeKeyValid_eval (db : UserDb) (uid key : String)
    (h1 : ':' ∉ uid.data) (h2 : ':' ∉ key.data) :
    UserRepository.isApiCompositeKeyValid db (uid ++ ":" ++ key)
      = match db.users.find? (fun w => jsNumberNat uid == some w.id) with
        | none => Except.error (ApiKeyCheckErr.known ⟨ErrorCode.UserNotFound, ""⟩)
        | some w =>
          match w.apiKey with
          | none => Except.error (ApiKeyCheckErr.known ⟨ErrorCode.AccessDenied, ""⟩)
          | some stored => Except.ok (bcrypt.compare key stored) := by
  unfold UserRepository.isApiCompositeKeyValid
  rw [jsSplit_append uid key h1 h2]
  rfl

theorem splitAux_ne_nil (sep : Char) (cs : List Char) : splitAux sep cs ≠ [] := by
  cases cs with
  | nil => simp [splitAux]
  | cons c cs =>
    by_cases h : c = sep
    · simp [splitAux, h]
    · simp [splitAux, h]

/-- Evaluation of `isApiCompositeKeyValid` on a composite key whose userId
part contains no colon, with an ARBITRARY remainder: the compared segment is
the text of the remainder before its own first colon. -/
theorem isApiCompositeKeyValid_eval_seg (db : UserDb) (uid rest : String)
    (h1 : ':' ∉ uid.data) :
    UserRepository.isApiCompositeKeyValid db (uid ++ ":" ++ rest)
      = match db.users.find? (fun w => jsNumberNat uid == some w.id) with
        | none => Except.error (ApiKeyCheckErr.known ⟨ErrorCode.UserNotFound, ""⟩)
        | some w =>
          match w.apiKey with
          | none => Except.error (ApiKeyCheckErr.known ⟨ErrorCode.AccessDenied, ""⟩)
          | some stored =>
            Except.ok (bcrypt.compare ((jsSplit rest ':').headD "") stored) := by
  have hdata : (uid ++ ":" ++ rest).data = uid.data ++ ':' :: rest.data := by
    simp [String.data_append]
  obtain ⟨s, ss, hss⟩ : ∃ s ss, splitAux ':' rest.data = s :: ss := by
    cases hsp : splitAux ':' rest.data with
    | nil => exact absurd hsp (splitAux_ne_nil ':' rest.data)
    | cons s ss => exact ⟨s, ss, rfl⟩
  unfold UserRepository.isApiCompositeKeyValid jsSplit
  rw [hdata, splitAux_append ':' uid.data rest.data h1, hss]
  rfl

/-- After writing an encrypted API key onto the row with the given id, the
lookup performed by `isApiCompositeKeyValid` finds exactly that updated row. -/
theorem find?_after_apiKey_write (users : List UserRow) (id : Nat) (enc : String)
    (uid : String) (hid : jsNumberNat uid = some id) (u : UserRow)
    (hFind : users.find? (fun w => w.id == id) = some u) :
    (users.map (fun w => if w.id == id then { w with apiKey := some enc } else w)).find?
        (fun w => jsNumberNat uid == some w.id)
      = some { u with apiKey := some enc } := by
  rw [List.find?_map]
  have hcomp : ((fun w => jsNumberNat uid == some w.id)
      ∘ (fun w : UserRow => if w.id == id then { w with apiKey := some enc } else w))
      = (fun w => w.id == id) := by
    funext w
    dsimp only [Function.comp]
    by_cases hw : (w.id == id) = true
    · rw [if_pos hw]
      show (jsNumberNat uid == some w.id) = (w.id == id)
      rw [hid]
      show (id == w.id) = (w.id == id)
      exact beq_nat_symm id w.id
    · rw [if_neg hw]
      show (jsNumberNat uid == some w.id) = (w.id == id)
      rw [hid]
      show (id == w.id) = (w.id == id)
      exact beq_nat_symm id w.id
  rw [hcomp, hFind]
  have hu := List.find?_some hFind
  have hu2 : (u.id == id) = true := hu
  show some (if (u.id == id) = true then { u with apiKey := some enc } else u) = _
  rw [if_pos hu2]

/-- C6 (amended): `updateApiKey(id)` hex-encodes the 32 entropy bytes into
the plaintext key K it returns (so K has 64 hex characters), persists ONLY
the bcrypt hash of K on the user's row (the hash differs from the plaintext,
which is never stored); immediately afterwards
`isApiCompositeKeyValid("<id>:<K>")` returns true, and a non-matching key
returns false PROVIDED the segment the code actually compares — the text of
the supplied key before its own first colon — differs from K. (The original
claim fails for non-matching keys of the form "K:junk", whose compared
segment is exactly K: see the counterexample.) -/
theorem updateApiKey_roundtrip :
    ∀ (db : UserDb) (id : Nat) (entropy : List Nat) (uid : String) (u : UserRow),
      entropy.length = 32 →
      jsNumberNat uid = some id →
      ':' ∉ uid.data →
      db.users.find? (fun w => w.id == id) = some u →
      UserRepository.updateApiKey db id entropy
        = Except.ok
            ({ db with users := db.users.map (fun w => if w.id == id then
                { w with apiKey := some (UserRepository.encrypt (hexEncode entropy)) } else w) },
              hexEncode entropy) ∧
      (hexEncode entropy).length = 64 ∧
      UserRepository.encrypt (hexEncode entropy) ≠ hexEncode entropy ∧
      UserRepository.isApiCompositeKeyValid
          { db with users := db.users.map (fun w => if w.id == id then
              { w with apiKey := some (UserRepository.encrypt (hexEncode entropy)) } else w) }
          (uid ++ ":" ++ hexEncode entropy) = Except.ok true ∧
      (∀ wrong : String, (jsSplit wrong ':').headD "" ≠ hexEncode entropy →
        UserRepository.isApiCompositeKeyValid
            { db with users := db.users.map (fun w => if w.id == id then
                { w with apiKey := some (UserRepository.encrypt (hexEncode entropy)) } else w) }
            (uid ++ ":" ++ wrong) = Except.ok false) := by
  intro db id entropy uid u hlen hid hcolon hFind
  refine ⟨?_, ?_, ?_, ?_, ?_⟩
  · unfold UserRepository.updateApiKey UserRepository.createApiKey
    rw [hFind]
  · rw [hexEncode_length, hlen]
  · exact bcrypt.hash_ne_self (hexEncode entropy)
  · rw [isApiCompositeKeyValid_eval _ uid (hexEncode entropy) hcolon
      (colon_not_mem_hexEncode entropy)]
    dsimp only
    rw [find?_after_apiKey_write db.users id _ uid hid u hFind]
    dsimp only
    show Except.ok (bcrypt.compare (hexEncode entropy) (bcrypt.hash (hexEncode entropy) 10))
      = Except.ok true
    rw [bcrypt.compare_hash_self]
  · intro wrong hwne
    rw [isApiCompositeKeyValid_eval_seg _ uid wrong hcolon]
    dsimp only
    rw [find?_after_apiKey_write db.users id _ uid hid u hFind]
    dsimp only
    show Except.ok (bcrypt.compare ((jsSplit wrong ':').headD "")
        (bcrypt.hash (hexEncode entropy) 10))
      = Except.ok false
    rw [bcrypt.compare_hash_of_ne hwne]

/-- C6 witness: a concrete rotation for user 1 of `wDb` with 32 zero bytes. -/
theorem updateApiKey_roundtrip_witness :
    (hexEncode (List.replicate 32 0)).length = 64 ∧
    UserRepository.isApiCompositeKeyValid
        { wDb with users := wDb.users.map (fun w => if w.id == 1 then
            { w with apiKey := some (UserRepository.encrypt (hexEncode (List.replicate 32 0))) } else w) }
        ("1" ++ ":" ++ hexEncode (List.replicate 32 0)) = Except.ok true ∧
    UserRepository.isApiCompositeKeyValid
        { wDb with users := wDb.users.map (fun w => if w.id == 1 then
            { w with apiKey := some (UserRepository.encrypt (hexEncode (List.replicate 32 0))) } else w) }
        ("1" ++ ":" ++ "0123") = Except.ok false := by
  have h := updateApiKey_roundtrip wDb 1 (List.replicate 32 0) "1" wRow
    (by decide) (by decide) (by decide) (by decide)
  exact ⟨h.2.1, h.2.2.2.1, h.2.2.2.2 "0123" (by decide)⟩

/-- C6 counterexample: "with any non-matching key returns false" fails. After
rotating user 1's key to the plaintext K (here the hex encoding of 32 zero
bytes), the composite key "1:K:x" supplies the non-matching key "K:x" — yet
`split(':')` truncates it to its first segment K, so the validation returns
true for a key that does not match the issued one. -/
theorem updateApiKey_colon_suffix_cex :
    UserRepository.updateApiKey wDb 1 (List.replicate 32 0)
      = Except.ok (⟨[⟨1, "alice", UserRepository.encrypt "pw1",
          some (UserRepository.encrypt (hexEncode (List.replicate 32 0)))⟩], 2⟩,
          hexEncode (List.replicate 32 0)) ∧
    hexEncode (List.replicate 32 0) ++ ":x" ≠ hexEncode (List.replicate 32 0) ∧
    UserRepository.isApiCompositeKeyValid
        ⟨[⟨1, "alice", UserRepository.encrypt "pw1",
          some (UserRepository.encrypt (hexEncode (List.replicate 32 0)))⟩], 2⟩
        ("1" ++ ":" ++ (hexEncode (List.replicate 32 0) ++ ":x")) = Except.ok true := by
  refine ⟨by decide, by decide, by decide⟩

theorem authStep_preserves_WF (verify : String → Option JwtClaims)
    (entries : List CacheEntry) (token : String) (now : Nat)
    (h : CacheWF verify entries) :
    CacheWF verify (authStep verify entries token now).2 := by
  unfold authStep
  by_cases hHit : cacheHas entries token now = true
  · rw [if_pos hHit]
    exact h
  · rw [if_neg hHit]
    cases hv : verify token with
    | none => exact h
    | some decoded =>
      dsimp only
      by_cases hExp : decoded.iat * 1000 + AUTH_TTL < now
      · rw [if_pos hExp]
        exact h
      · rw [if_neg hExp]
        intro e he
        rcases List.mem_cons.mp he with hEq | hm
        · subst hEq
          refine ⟨hv, ?_⟩
          dsimp only [cacheSet]
          omega
        · exact h e hm

theorem runAuth_WF (verify : String → Option JwtClaims) (events : List (String × Nat)) :
    CacheWF verify (runAuth verify events) := by
  unfold runAuth
  have hgen : ∀ (evs : List (String × Nat)) (es : List CacheEntry), CacheWF verify es →
      CacheWF verify (evs.foldl (fun es ev => (authStep verify es ev.1 ev.2).2) es) := by
    intro evs
    induction evs with
    | nil => intro es h; exact h
    | cons ev evs ih =>
      intro es h
      exact ih _ (authStep_preserves_WF verify es ev.1 ev.2 h)
  exact hgen events [] (fun e he => absurd he (List.not_mem_nil e))

/-- C7: in any cache reachable from the empty cache through `options.auth`
checks, (a) every entry was created only after its token verified, and its
expiry equals the token's absolute validity boundary `iat*1000 + AUTH_TTL`
(its TTL was the token's remaining lifetime at insertion); hence (b) a cache
lookup hit at time `now` only ever accepts a token that verifies and whose
issued-at age `now - iat*1000` is still strictly within the max-age policy —
a cache entry never outlives its token's validity window. -/
theorem jwtCache_hit_within_policy :
    ∀ (verify : String → Option JwtClaims) (events : List (String × Nat)),
      (∀ e ∈ runAuth verify events,
        verify e.token = some e.claims
          ∧ e.expiresAt = e.claims.iat * 1000 + AUTH_TTL) ∧
      (∀ (token : String) (now : Nat),
        cacheHas (runAuth verify events) token now = true →
        ∃ c, verify token = some c ∧ now - c.iat * 1000 < AUTH_TTL) := by
  intro verify events
  have hWF := runAuth_WF verify events
  refine ⟨hWF, ?_⟩
  intro token now hHit
  rcases List.any_eq_true.mp hHit with ⟨e, he, hcond⟩
  simp only [Bool.and_eq_true] at hcond
  rcases hcond with ⟨htok, hlt⟩
  have htok2 : e.token = token := by
    exact eq_of_beq htok
  have hlt2 : now < e.expiresAt := of_decide_eq_true hlt
  rcases hWF e he with ⟨hver, hexp⟩
  refine ⟨e.claims, ?_, ?_⟩
  · rw [← htok2]
    exact hver
  · rw [hexp] at hlt2
    unfold AUTH_TTL at hlt2 ⊢
    omega

/-- C7 witness: after an auth check of "tok" at t=500 ms populates the cache,
a hit at t=2000 ms only accepts it because its age is within the policy. -/
theorem jwtCache_hit_within_policy_witness :
    cacheHas (runAuth wVerify [("tok", 500)]) "tok" 2000 = true ∧
    (∃ c, wVerify "tok" = some c ∧ 2000 - c.iat * 1000 < AUTH_TTL) := by
  constructor
  · decide
  · exact (jwtCache_hit_within_policy wVerify [("tok", 500)]).2 "tok" 2000 (by decide)

/-- C10: whenever a handler registered through `createRoute` throws a
`KnownError` — of any code — the reply has status `HttpStatus.ServerError`,
whose numeric code is 503, with body `{error: code, message}`; the status
code of that reply is in particular never 401 (`Unauthorized`), 403, or 404
(`NotFound`), although the imported enum does contain `Unauthorized` and
`NotFound` members (used outside the handler catch block). -/
theorem createRoute_knownError_maps_to_503 :
    (∀ (α : Type) (code : ErrorCode) (msg : String),
      @createRouteHandler α (Except.error (Thrown.known ⟨code, msg⟩))
        = ⟨HttpStatus.ServerError, ResponseBody.knownErr code msg⟩) ∧
    HttpStatus.ServerError.toCode = 503 ∧
    (∀ (α : Type) (code : ErrorCode) (msg : String),
      (@createRouteHandler α (Except.error (Thrown.known ⟨code, msg⟩))).status.toCode ≠ 401 ∧
      (@createRouteHandler α (Except.error (Thrown.known ⟨code, msg⟩))).status.toCode ≠ 403 ∧
      (@createRouteHandler α (Except.error (Thrown.known ⟨code, msg⟩))).status.toCode ≠ 404) := by
  refine ⟨fun α code msg => rfl, rfl, fun α code msg => ?_⟩
  have hc : (@createRouteHandler α (Except.error (Thrown.known ⟨code, msg⟩))).status.toCode
      = 503 := rfl
  rw [hc]
  refine ⟨by decide, by decide, by decide⟩
